import Mathlib

/-!
Verification of the changelog tasks (`src/tasks/changelog.py`).

The program has two operations:

* `new` (creator): makes the staging directory, creates one empty file
  `.changelog/<title>-<uuid4.hex[16:]>.md`, then either prints an
  instruction to edit the file manually (when `EDITOR` is unset) or runs
  `os.system("<EDITOR> <path>")`, whose exit status it never inspects,
  and finally prints a reminder.

* `done` (compiler): for every file in `.changelog/`, scans its lines;
  a line starting with the two-character marker (hash, space) opens a
  section named by the stripped remainder and resets that name's
  accumulated text to empty; any other line is appended verbatim to the
  current section, or dropped when no section is open yet.  Every
  section body is then converted by `pypandoc.convert_text`, the record
  is dumped to `releasenotes/notes/<name[:-3]>.yaml`, and only after the
  write does `os.remove` delete the fragment.

The embedding below mirrors the Python line by line: Python strings are
`String`, slices `s[n:]` / `s[:-n]` are explicit operations on the
character list, `dict` is an association list with insertion-order
update semantics, and the fallible steps (read, convert, write) are
`Except`-valued so that the statement order of the source (write, then
remove) is visible in the state returned on error.
-/

namespace Changelog

/-- Python slice `s[n:]`: the characters of `s` from index `n` on. -/
def sliceFrom (s : String) (n : Nat) : String :=
  String.mk (s.data.drop n)

/-- Python slice `s[:-n]`: all characters of `s` but the last `n`. -/
def sliceDropRight (s : String) (n : Nat) : String :=
  String.mk (s.data.take (s.data.length - n))

/-- Python `s.startswith(p)`. -/
def pyStartsWith (s p : String) : Bool :=
  p.data.isPrefixOf s.data

/-- Python `s.strip()`: remove whitespace from both ends. -/
def pyStrip (s : String) : String :=
  String.mk (((s.data.dropWhile Char.isWhitespace).reverse.dropWhile Char.isWhitespace).reverse)

/-- Concatenation of a list of raw lines, in order. -/
def concatLines : List String → String
  | [] => ""
  | l :: ls => l ++ concatLines ls

/-- Lookup in an insertion-ordered dictionary modelled as an association list. -/
def lookupKey {α : Type} : List (String × α) → String → Option α
  | [], _ => none
  | (a, v) :: rest, k => if a = k then some v else lookupKey rest k

/-- Python `d[k] = v`: replace the value at an existing key in place, or
append a new binding at the end (insertion order). -/
def setKey {α : Type} : List (String × α) → String → α → List (String × α)
  | [], k, v => [(k, v)]
  | (a, w) :: rest, k, v =>
    if a = k then (a, v) :: rest else (a, w) :: setKey rest k v

/-- Python `d[k] += v` on string values: append `v` to the value stored at `k`
(no effect when `k` is absent; the source only reaches this with `k` present). -/
def appendKey : List (String × String) → String → String → List (String × String)
  | [], _, _ => []
  | (a, w) :: rest, k, v =>
    if a = k then (a, w ++ v) :: rest else (a, w) :: appendKey rest k v

/-- Python `del`-like removal used to model `os.remove` on the staging listing. -/
def removeKey {α : Type} : List (String × α) → String → List (String × α)
  | [], _ => []
  | (a, w) :: rest, k =>
    if a = k then removeKey rest k else (a, w) :: removeKey rest k

/-- The scan state of the fragment parser: the section mapping built so far
(`sections` in the source) and the currently open section name
(`current_section`). -/
structure ParseState where
  sections : List (String × String)
  current : Option String
  deriving Repr, DecidableEq

/-- One line of the parsing loop of `done`: a line starting with the marker
(hash, space) opens the section named by the stripped remainder and resets its
accumulated text to the empty string; otherwise the raw line is appended to
the open section, or dropped when none is open. -/
def processLine (st : ParseState) (line : String) : ParseState :=
  if pyStartsWith line "# " then
    ParseState.mk (setKey st.sections (pyStrip (sliceFrom line 2)) "") (some (pyStrip (sliceFrom line 2)))
  else
    match st.current with
    | some n => ParseState.mk (appendKey st.sections n line) (some n)
    | none => st

/-- The whole parsing loop: fold `processLine` over the fragment's lines in
file order, starting from the empty mapping with no open section. -/
def parseFragment (lines : List String) : List (String × String) :=
  (lines.foldl processLine (ParseState.mk [] none)).sections

/-- A note record: section name to one-element list of converted text. -/
abbrev Record := List (String × List String)

/-- The conversion loop of `done` with a fallible converter: each section's
accumulated text is replaced by a one-element list holding the converted
text; the first conversion error aborts. -/
def convertSections (convert : String → Except String String) :
    List (String × String) → Except String Record
  | [] => Except.ok []
  | (n, s) :: rest =>
    match convert s with
    | Except.error e => Except.error e
    | Except.ok c =>
      match convertSections convert rest with
      | Except.error e => Except.error e
      | Except.ok r => Except.ok ((n, [c]) :: r)

/-- The record produced for a fragment by a total converter. -/
def compileRecord (convert : String → String) (lines : List String) : Record :=
  (parseFragment lines).map (fun p => (p.1, [convert p.2]))

/-- Output filename: the source computes `release_note[:-3] + ".yaml"`. -/
def outputName (name : String) : String :=
  sliceDropRight name 3 ++ ".yaml"

/-- Modelled from the spec: the output filename with the fragment's extension
replaced by the structured-record extension, i.e. everything before the last
dot (or the whole name when it has no dot) followed by `.yaml`.  This is the
spec's wording, kept separate so it can be compared with `outputName`, which
is translated from the source. -/
def replaceExtYaml (name : String) : String :=
  if '.' ∈ name.data then
    String.mk (((name.data.reverse.dropWhile (fun c => c != '.')).drop 1).reverse) ++ ".yaml"
  else
    name ++ ".yaml"

/-- The filesystem as the compiler sees it: the staging directory (fragment
filename to its list of raw lines) and the notes output directory (output
filename to the record written there). -/
structure FS where
  staging : List (String × List String)
  notes : List (String × Record)
  deriving Repr, DecidableEq

/-- Processing of one fragment by `done`, with each fallible step explicit:
read the fragment's lines from staging, parse, convert every section, write
the record to the notes directory (`writeF` models the OS accepting or
rejecting the write), and only after a successful write remove the fragment
from staging.  On any error the filesystem is returned as it was at that
point: the write happens before the remove, exactly as in the source. -/
def doneOne (convert : String → Except String String)
    (writeF : String → Record → Except String Unit)
    (name : String) (fs : FS) : Except String Unit × FS :=
  match lookupKey fs.staging name with
  | none => (Except.error "read failed", fs)
  | some lines =>
    match convertSections convert (parseFragment lines) with
    | Except.error e => (Except.error e, fs)
    | Except.ok record =>
      match writeF (outputName name) record with
      | Except.error e => (Except.error e, fs)
      | Except.ok _ =>
        (Except.ok (),
         FS.mk (removeKey fs.staging name)
               (setKey fs.notes (outputName name) record))

/-- The loop of `done` over a list of fragment filenames: the first error
aborts the whole run, leaving the filesystem as it was when the error arose. -/
def doneLoop (convert : String → Except String String)
    (writeF : String → Record → Except String Unit) :
    List String → FS → Except String Unit × FS
  | [], fs => (Except.ok (), fs)
  | n :: ns, fs =>
    match doneOne convert writeF n fs with
    | (Except.error e, fs1) => (Except.error e, fs1)
    | (Except.ok _, fs1) => doneLoop convert writeF ns fs1

/-- The `done` task: process every file currently in the staging directory. -/
def doneTask (convert : String → Except String String)
    (writeF : String → Record → Except String Unit)
    (fs : FS) : Except String Unit × FS :=
  doneLoop convert writeF (fs.staging.map Prod.fst) fs

/-- Lowercase hexadecimal digit, as produced by `uuid.uuid4().hex`. -/
def isHexChar (c : Char) : Bool :=
  c.isDigit || ('a' ≤ c && c ≤ 'f')

/-- The fragment path built by `new`:
`".changelog/{}-{}.md".format(title, uuidHex[16:])`. -/
def fragmentPath (title uuidHex : String) : String :=
  ".changelog/" ++ title ++ "-" ++ sliceFrom uuidHex 16 ++ ".md"

/-- The messages `new` prints, as abstract tags. -/
inductive Msg where
  | editManually (path : String)
  | reminder
  deriving Repr, DecidableEq

/-- The outcome of a run of `new`: the path created, the staging files after
the run (path to content), the messages printed, and the exit status returned
by `os.system` when an editor was launched.  The status is recorded but never
inspected, exactly as in the source. -/
structure NewResult where
  createdPath : String
  files : List (String × String)
  messages : List Msg
  editorStatus : Option Int
  deriving Repr, DecidableEq

/-- The `new` task: create the fragment file empty, then either print the
manual-edit instruction (no editor configured) or run the editor command
through `runSystem`, ignoring its exit status; always end with the reminder.
The function is total: no outcome of `runSystem` produces an error. -/
def newTask (title uuidHex : String) (editor : Option String)
    (runSystem : String → Int) (files : List (String × String)) : NewResult :=
  match editor with
  | none =>
    NewResult.mk (fragmentPath title uuidHex)
      (files ++ [(fragmentPath title uuidHex, "")])
      [Msg.editManually (fragmentPath title uuidHex), Msg.reminder]
      none
  | some ed =>
    NewResult.mk (fragmentPath title uuidHex)
      (files ++ [(fragmentPath title uuidHex, "")])
      [Msg.reminder]
      (some (runSystem (ed ++ " " ++ fragmentPath title uuidHex)))

/-! Helper lemmas about the dictionary model and the parsing loop. -/

theorem lookupKey_setKey_self {α : Type} (m : List (String × α)) (k : String) (v : α) :
    lookupKey (setKey m k v) k = some v := by
  induction m with
  | nil => simp [setKey, lookupKey]
  | cons p rest ih =>
    obtain ⟨a, w⟩ := p
    by_cases h : a = k
    · simp [setKey, lookupKey, h]
    · simp [setKey, lookupKey, h, ih]

theorem lookupKey_removeKey_self {α : Type} (m : List (String × α)) (k : String) :
    lookupKey (removeKey m k) k = none := by
  induction m with
  | nil => simp [removeKey, lookupKey]
  | cons p rest ih =>
    obtain ⟨a, w⟩ := p
    by_cases h : a = k
    · simp [removeKey, h, ih]
    · simp [removeKey, lookupKey, h, ih]

theorem lookupKey_appendKey_self (m : List (String × String)) (k v s : String)
    (h : lookupKey m k = some s) :
    lookupKey (appendKey m k v) k = some (s ++ v) := by
  induction m with
  | nil => simp [lookupKey] at h
  | cons p rest ih =>
    obtain ⟨a, w⟩ := p
    by_cases ha : a = k
    · simp [lookupKey, ha] at h
      simp [appendKey, lookupKey, ha, h]
    · simp [lookupKey, ha] at h
      simp [appendKey, lookupKey, ha, ih h]

theorem appendKey_empty (m : List (String × String)) (k : String) :
    appendKey m k "" = m := by
  induction m with
  | nil => simp [appendKey]
  | cons p rest ih =>
    obtain ⟨a, w⟩ := p
    by_cases h : a = k
    · simp [appendKey, h, String.append_empty]
    · simp [appendKey, h, ih]

theorem appendKey_appendKey (m : List (String × String)) (k u v : String) :
    appendKey (appendKey m k u) k v = appendKey m k (u ++ v) := by
  induction m with
  | nil => simp [appendKey]
  | cons p rest ih =>
    obtain ⟨a, w⟩ := p
    by_cases h : a = k
    · simp [appendKey, h, String.append_assoc]
    · simp [appendKey, h, ih]

theorem processLine_heading (st : ParseState) (line : String)
    (h : pyStartsWith line "# " = true) :
    processLine st line =
      ParseState.mk (setKey st.sections (pyStrip (sliceFrom line 2)) "")
        (some (pyStrip (sliceFrom line 2))) := by
  simp [processLine, h]

theorem processLine_body_none (st : ParseState) (line : String)
    (h : pyStartsWith line "# " = false) (hc : st.current = none) :
    processLine st line = st := by
  simp [processLine, h, hc]

theorem processLine_body_some (st : ParseState) (line n : String)
    (h : pyStartsWith line "# " = false) (hc : st.current = some n) :
    processLine st line = ParseState.mk (appendKey st.sections n line) (some n) := by
  simp [processLine, h, hc]

theorem foldl_processLine_none (ls : List String) (m : List (String × String))
    (h : ∀ l ∈ ls, pyStartsWith l "# " = false) :
    ls.foldl processLine (ParseState.mk m none) = ParseState.mk m none := by
  induction ls with
  | nil => rfl
  | cons l ls ih =>
    rw [List.foldl_cons,
      processLine_body_none (ParseState.mk m none) l (h l (List.mem_cons_self l ls)) rfl]
    exact ih fun x hx => h x (List.mem_cons_of_mem l hx)

theorem foldl_processLine_some (ls : List String) (m : List (String × String)) (n : String)
    (h : ∀ l ∈ ls, pyStartsWith l "# " = false) :
    ls.foldl processLine (ParseState.mk m (some n)) =
      ParseState.mk (appendKey m n (concatLines ls)) (some n) := by
  induction ls generalizing m with
  | nil => simp [concatLines, appendKey_empty]
  | cons l ls ih =>
    rw [List.foldl_cons,
      processLine_body_some (ParseState.mk m (some n)) l n (h l (List.mem_cons_self l ls)) rfl]
    rw [ih (appendKey m n l) fun x hx => h x (List.mem_cons_of_mem l hx)]
    rw [appendKey_appendKey]
    rfl

theorem convertSections_total (c : String → String) (secs : List (String × String)) :
    convertSections (fun s => Except.ok (c s)) secs =
      Except.ok (secs.map fun p => (p.1, [c p.2])) := by
  induction secs with
  | nil => rfl
  | cons p rest ih =>
    obtain ⟨n, s⟩ := p
    simp [convertSections, ih]

theorem parseFragment_two_sections (h1 h2 n1 n2 : String) (b1 b2 : List String)
    (hh1 : pyStartsWith h1 "# " = true) (hn1 : pyStrip (sliceFrom h1 2) = n1)
    (hh2 : pyStartsWith h2 "# " = true) (hn2 : pyStrip (sliceFrom h2 2) = n2)
    (hne : n1 ≠ n2)
    (hb1 : ∀ l ∈ b1, pyStartsWith l "# " = false)
    (hb2 : ∀ l ∈ b2, pyStartsWith l "# " = false) :
    parseFragment (h1 :: (b1 ++ h2 :: b2)) = [(n1, concatLines b1), (n2, concatLines b2)] := by
  unfold parseFragment
  rw [List.foldl_cons, processLine_heading _ h1 hh1, hn1]
  have e0 : setKey ([] : List (String × String)) n1 "" = [(n1, "")] := rfl
  rw [e0, List.foldl_append, foldl_processLine_some b1 [(n1, "")] n1 hb1]
  have e1 : appendKey [(n1, "")] n1 (concatLines b1) = [(n1, "" ++ concatLines b1)] := by
    simp [appendKey]
  rw [e1, String.empty_append, List.foldl_cons, processLine_heading _ h2 hh2, hn2]
  have e2 : setKey [(n1, concatLines b1)] n2 "" = [(n1, concatLines b1), (n2, "")] := by
    simp [setKey, hne]
  rw [e2, foldl_processLine_some b2 _ n2 hb2]
  have e3 : appendKey [(n1, concatLines b1), (n2, "")] n2 (concatLines b2)
      = [(n1, concatLines b1), (n2, "" ++ concatLines b2)] := by
    simp [appendKey, hne]
  rw [e3, String.empty_append]

theorem parseFragment_repeated_heading (h1 h2 n : String) (b1 b2 : List String)
    (hh1 : pyStartsWith h1 "# " = true) (hn1 : pyStrip (sliceFrom h1 2) = n)
    (hh2 : pyStartsWith h2 "# " = true) (hn2 : pyStrip (sliceFrom h2 2) = n)
    (hb1 : ∀ l ∈ b1, pyStartsWith l "# " = false)
    (hb2 : ∀ l ∈ b2, pyStartsWith l "# " = false) :
    parseFragment (h1 :: (b1 ++ h2 :: b2)) = [(n, concatLines b2)] := by
  unfold parseFragment
  rw [List.foldl_cons, processLine_heading _ h1 hh1, hn1]
  have e0 : setKey ([] : List (String × String)) n "" = [(n, "")] := rfl
  rw [e0, List.foldl_append, foldl_processLine_some b1 [(n, "")] n hb1]
  have e1 : appendKey [(n, "")] n (concatLines b1) = [(n, "" ++ concatLines b1)] := by
    simp [appendKey]
  rw [e1, List.foldl_cons, processLine_heading _ h2 hh2, hn2]
  have e2 : setKey [(n, "" ++ concatLines b1)] n "" = [(n, "")] := by
    simp [setKey]
  rw [e2, foldl_processLine_some b2 _ n hb2]
  have e3 : appendKey [(n, "")] n (concatLines b2) = [(n, "" ++ concatLines b2)] := by
    simp [appendKey]
  rw [e3, String.empty_append]

theorem doneOne_ok (convert : String → Except String String)
    (writeF : String → Record → Except String Unit) (name : String) (fs : FS)
    (lines : List String) (record : Record)
    (hread : lookupKey fs.staging name = some lines)
    (hconv : convertSections convert (parseFragment lines) = Except.ok record)
    (hwrite : writeF (outputName name) record = Except.ok ()) :
    doneOne convert writeF name fs =
      (Except.ok (),
        FS.mk (removeKey fs.staging name) (setKey fs.notes (outputName name) record)) := by
  unfold doneOne
  simp only [hread, hconv, hwrite]

/-! Claim theorems. -/

/-- C1 (counterexample): the fragment with two blocks under the repeated
heading name `Fixes` does not map `Fixes` to the concatenation of the raw
lines of both blocks in file order; the claimed accumulated body is refuted
at this concrete input. -/
theorem c1_counterexample :
    ¬ (parseFragment ["# Fixes\n", "a\n", "# Fixes\n", "b\n"]
        = [("Fixes", concatLines ["a\n", "b\n"])]) := by
  decide

/-- C1 (amended): for a fragment with two heading lines carrying the same
trimmed section name, the section mapping has one entry for that name whose
accumulated body text, before conversion, is the concatenation of the raw
lines of the last block only: a repeated heading resets the accumulated body
to empty rather than appending to it. -/
theorem c1_repeated_heading_keeps_last_block (h1 h2 n : String) (b1 b2 : List String)
    (hh1 : pyStartsWith h1 "# " = true) (hn1 : pyStrip (sliceFrom h1 2) = n)
    (hh2 : pyStartsWith h2 "# " = true) (hn2 : pyStrip (sliceFrom h2 2) = n)
    (hb1 : ∀ l ∈ b1, pyStartsWith l "# " = false)
    (hb2 : ∀ l ∈ b2, pyStartsWith l "# " = false) :
    parseFragment (h1 :: (b1 ++ h2 :: b2)) = [(n, concatLines b2)] :=
  parseFragment_repeated_heading h1 h2 n b1 b2 hh1 hn1 hh2 hn2 hb1 hb2

/-- C1 (witness): the amended theorem applied to the two-block `Fixes`
fragment: only the last block's raw text survives. -/
theorem c1_repeated_heading_witness :
    parseFragment ("# Fixes\n" :: (["a\n"] ++ "# Fixes\n" :: ["b\n"]))
      = [("Fixes", concatLines ["b\n"])] :=
  c1_repeated_heading_keeps_last_block "# Fixes\n" "# Fixes\n" "Fixes" ["a\n"] ["b\n"]
    (by decide) (by decide) (by decide) (by decide) (by decide) (by decide)

/-- C4: every line before the first heading line is discarded: the section
mapping of a fragment with leading non-heading lines is identical to the
mapping of the same fragment with those lines removed (and the parser, a
total function, raises nothing on them). -/
theorem c4_leading_lines_dropped (pre rest : List String)
    (hpre : ∀ l ∈ pre, pyStartsWith l "# " = false) :
    parseFragment (pre ++ rest) = parseFragment rest := by
  unfold parseFragment
  rw [List.foldl_append, foldl_processLine_none pre [] hpre]

/-- C4 (witness): a junk line before the first heading changes nothing. -/
theorem c4_leading_lines_witness :
    parseFragment (["junk\n"] ++ ["# A\n", "x\n"]) = parseFragment ["# A\n", "x\n"] :=
  c4_leading_lines_dropped ["junk\n"] ["# A\n", "x\n"] (by decide)

/-- C5: per-line processing, in file order (the parser is a left fold over
the lines): a line starting with the marker (hash, space) makes its stripped
remainder the current section name; any other line, when a section is
active, is appended raw (terminator included) to that section's accumulated
text, the current section staying active. -/
theorem c5_line_step (st : ParseState) (line : String) :
    (pyStartsWith line "# " = true →
      (processLine st line).current = some (pyStrip (sliceFrom line 2))) ∧
    (pyStartsWith line "# " = false →
      ∀ n s, st.current = some n → lookupKey st.sections n = some s →
        (processLine st line).current = some n ∧
        lookupKey (processLine st line).sections n = some (s ++ line)) := by
  constructor
  · intro h
    rw [processLine_heading st line h]
  · intro h n s hc hs
    rw [processLine_body_some st line n h hc]
    exact ⟨rfl, lookupKey_appendKey_self st.sections n line s hs⟩

/-- C5 (witness): a heading line sets the current section to its stripped
name; a body line is appended with its terminator to the active section. -/
theorem c5_line_step_witness :
    (processLine (ParseState.mk [] none) "# B\n").current = some "B" ∧
    lookupKey (processLine (ParseState.mk [("A", "x")] (some "A")) "y\n").sections "A"
      = some ("x" ++ "y\n") := by
  constructor
  · have h := (c5_line_step (ParseState.mk [] none) "# B\n").1 (by decide)
    rw [h]
    decide
  · exact ((c5_line_step (ParseState.mk [("A", "x")] (some "A")) "y\n").2 (by decide)
      "A" "x" rfl (by decide)).2

/-- C10: only lines beginning with exactly the two characters hash, space
are headings.  Any other line (so in particular a line starting with a hash
not followed by a space, or with a deeper marker) leaves the current section
unchanged and is appended to it, or discarded when no section is active; a
heading whose remainder strips to nothing opens the section named by the
empty string. -/
theorem c10_exact_marker (st : ParseState) (line : String) :
    (pyStartsWith line "# " = false →
      (processLine st line).current = st.current ∧
      (st.current = none → processLine st line = st) ∧
      (∀ n s, st.current = some n → lookupKey st.sections n = some s →
        lookupKey (processLine st line).sections n = some (s ++ line))) ∧
    (pyStartsWith line "# " = true → pyStrip (sliceFrom line 2) = "" →
      (processLine st line).current = some "" ∧
      lookupKey (processLine st line).sections "" = some "") := by
  constructor
  · intro h
    refine ⟨?_, ?_, ?_⟩
    · cases hc : st.current with
      | none =>
        rw [processLine_body_none st line h hc]
        exact hc
      | some n => rw [processLine_body_some st line n h hc]
    · intro hc
      exact processLine_body_none st line h hc
    · intro n s hc hs
      rw [processLine_body_some st line n h hc]
      exact lookupKey_appendKey_self st.sections n line s hs
  · intro h hname
    rw [processLine_heading st line h, hname]
    exact ⟨rfl, lookupKey_setKey_self st.sections "" ""⟩

/-- C10 (witness): a deeper marker line is discarded with no active section,
a hash line without the space is appended to the active section, and a
heading with a whitespace-only remainder opens the empty-named section. -/
theorem c10_exact_marker_witness :
    processLine (ParseState.mk [] none) "## deep\n" = ParseState.mk [] none ∧
    lookupKey (processLine (ParseState.mk [("A", "x")] (some "A")) "#deep\n").sections "A"
      = some ("x" ++ "#deep\n") ∧
    (processLine (ParseState.mk [] none) "#  \n").current = some "" := by
  refine ⟨?_, ?_, ?_⟩
  · exact ((c10_exact_marker (ParseState.mk [] none) "## deep\n").1 (by decide)).2.1 rfl
  · exact ((c10_exact_marker (ParseState.mk [("A", "x")] (some "A")) "#deep\n").1
      (by decide)).2.2 "A" "x" rfl (by decide)
  · exact ((c10_exact_marker (ParseState.mk [] none) "#  \n").2 (by decide) (by decide)).1

/-- C2: a fragment whose lines form exactly the sections Bug Fixes and
Features, each introduced once by a heading line and followed by body text,
compiles to a record whose keys are exactly those two names, each mapped to
the one-element list holding the converter applied to that section's
accumulated body; afterwards the fragment is gone from staging. -/
theorem c2_round_trip (h1 h2 name : String) (b1 b2 : List String) (fs : FS)
    (c : String → String) (writeF : String → Record → Except String Unit)
    (hh1 : pyStartsWith h1 "# " = true) (hn1 : pyStrip (sliceFrom h1 2) = "Bug Fixes")
    (hh2 : pyStartsWith h2 "# " = true) (hn2 : pyStrip (sliceFrom h2 2) = "Features")
    (hb1 : ∀ l ∈ b1, pyStartsWith l "# " = false)
    (hb2 : ∀ l ∈ b2, pyStartsWith l "# " = false)
    (hread : lookupKey fs.staging name = some (h1 :: (b1 ++ h2 :: b2)))
    (hwrite : writeF (outputName name)
      [("Bug Fixes", [c (concatLines b1)]), ("Features", [c (concatLines b2)])]
      = Except.ok ()) :
    doneOne (fun s => Except.ok (c s)) writeF name fs =
      (Except.ok (),
        FS.mk (removeKey fs.staging name)
          (setKey fs.notes (outputName name)
            [("Bug Fixes", [c (concatLines b1)]), ("Features", [c (concatLines b2)])])) ∧
    lookupKey (doneOne (fun s => Except.ok (c s)) writeF name fs).2.staging name = none := by
  have hparse := parseFragment_two_sections h1 h2 "Bug Fixes" "Features" b1 b2
    hh1 hn1 hh2 hn2 (by decide) hb1 hb2
  have hconv : convertSections (fun s => Except.ok (c s))
      (parseFragment (h1 :: (b1 ++ h2 :: b2)))
      = Except.ok [("Bug Fixes", [c (concatLines b1)]), ("Features", [c (concatLines b2)])] := by
    rw [convertSections_total, hparse]
    rfl
  have hdone := doneOne_ok (fun s => Except.ok (c s)) writeF name fs
    (h1 :: (b1 ++ h2 :: b2))
    [("Bug Fixes", [c (concatLines b1)]), ("Features", [c (concatLines b2)])]
    hread hconv hwrite
  refine ⟨hdone, ?_⟩
  rw [hdone]
  exact lookupKey_removeKey_self fs.staging name

/-- C2 (witness): the concrete two-section fragment from the spec's
round-trip scenario, compiled with a concrete converter and an accepting
write, yields exactly the two-key record and staging loses the fragment. -/
theorem c2_round_trip_witness :
    doneOne (fun s => Except.ok ("rst:" ++ s)) (fun _ _ => Except.ok ()) "foo-abc123.md"
        (FS.mk [("foo-abc123.md",
          "# Bug Fixes\n" :: (["fixed.\n"] ++ "# Features\n" :: ["added.\n"]))] []) =
      (Except.ok (),
        FS.mk (removeKey [("foo-abc123.md",
            "# Bug Fixes\n" :: (["fixed.\n"] ++ "# Features\n" :: ["added.\n"]))] "foo-abc123.md")
          (setKey [] (outputName "foo-abc123.md")
            [("Bug Fixes", ["rst:" ++ concatLines ["fixed.\n"]]),
             ("Features", ["rst:" ++ concatLines ["added.\n"]])])) := by
  exact (c2_round_trip "# Bug Fixes\n" "# Features\n" "foo-abc123.md" ["fixed.\n"] ["added.\n"]
    (FS.mk [("foo-abc123.md",
      "# Bug Fixes\n" :: (["fixed.\n"] ++ "# Features\n" :: ["added.\n"]))] [])
    (fun s => "rst:" ++ s) (fun _ _ => Except.ok ())
    (by decide) (by decide) (by decide) (by decide) (by decide) (by decide)
    (by decide) rfl).1

/-- C3: a fragment is deleted only after its record is written: whenever
processing a fragment ends in an error, whether from reading, converting a
section, or writing the output, the filesystem is exactly as it was, so the
fragment is still in staging, and the run over the remaining fragments
aborts with that error (the failure is fatal to the whole run). -/
theorem c3_error_keeps_fragment (convert : String → Except String String)
    (writeF : String → Record → Except String Unit) (name : String) (fs : FS) (e : String)
    (h : (doneOne convert writeF name fs).1 = Except.error e) :
    (doneOne convert writeF name fs).2 = fs ∧
    (∀ lines, lookupKey fs.staging name = some lines →
      lookupKey (doneOne convert writeF name fs).2.staging name = some lines) ∧
    (∀ ns, doneLoop convert writeF (name :: ns) fs = (Except.error e, fs)) := by
  have hsnd : (doneOne convert writeF name fs).2 = fs := by
    unfold doneOne at h ⊢
    cases hr : lookupKey fs.staging name with
    | none => simp [hr]
    | some lines =>
      cases hc : convertSections convert (parseFragment lines) with
      | error e2 => simp [hr, hc]
      | ok record =>
        cases hw : writeF (outputName name) record with
        | error e3 => simp [hr, hc, hw]
        | ok u => simp [hr, hc, hw] at h
  have hpair : doneOne convert writeF name fs = (Except.error e, fs) := by
    have : doneOne convert writeF name fs
        = ((doneOne convert writeF name fs).1, (doneOne convert writeF name fs).2) := rfl
    rw [this, h, hsnd]
  refine ⟨hsnd, ?_, ?_⟩
  · intro lines hl
    rw [hsnd]
    exact hl
  · intro ns
    unfold doneLoop
    simp only [hpair]

/-- C3 (witness): a converter that fails on the only section leaves the
fragment in staging and aborts the run with its error. -/
theorem c3_error_keeps_fragment_witness :
    (doneOne (fun _ => Except.error "boom") (fun _ _ => Except.ok ()) "x.md"
        (FS.mk [("x.md", ["# A\n", "b\n"])] [])).2
      = FS.mk [("x.md", ["# A\n", "b\n"])] [] ∧
    lookupKey (doneOne (fun _ => Except.error "boom") (fun _ _ => Except.ok ()) "x.md"
        (FS.mk [("x.md", ["# A\n", "b\n"])] [])).2.staging "x.md"
      = some ["# A\n", "b\n"] ∧
    doneLoop (fun _ => Except.error "boom") (fun _ _ => Except.ok ()) ["x.md"]
        (FS.mk [("x.md", ["# A\n", "b\n"])] [])
      = (Except.error "boom", FS.mk [("x.md", ["# A\n", "b\n"])] []) := by
  have h := c3_error_keeps_fragment (fun _ => Except.error "boom") (fun _ _ => Except.ok ())
    "x.md" (FS.mk [("x.md", ["# A\n", "b\n"])] []) "boom" rfl
  exact ⟨h.1, h.2.1 ["# A\n", "b\n"] (by decide), h.2.2 ["x.md"].tail⟩

/-- C7: a fragment with no heading line at all (the empty file included)
parses to the empty mapping, so the record written is empty, and the
fragment is still deleted from staging. -/
theorem c7_no_headings (lines : List String) (name : String) (fs : FS)
    (convert : String → Except String String)
    (writeF : String → Record → Except String Unit)
    (hl : ∀ l ∈ lines, pyStartsWith l "# " = false)
    (hread : lookupKey fs.staging name = some lines)
    (hwrite : writeF (outputName name) [] = Except.ok ()) :
    parseFragment lines = [] ∧
    doneOne convert writeF name fs =
      (Except.ok (),
        FS.mk (removeKey fs.staging name) (setKey fs.notes (outputName name) [])) ∧
    lookupKey (doneOne convert writeF name fs).2.staging name = none := by
  have hparse : parseFragment lines = [] := by
    unfold parseFragment
    rw [foldl_processLine_none lines [] hl]
  have hconv : convertSections convert (parseFragment lines) = Except.ok [] := by
    rw [hparse]
    rfl
  have hdone := doneOne_ok convert writeF name fs lines [] hread hconv hwrite
  refine ⟨hparse, hdone, ?_⟩
  rw [hdone]
  exact lookupKey_removeKey_self fs.staging name

/-- C7 (witness): the empty fragment compiles to the empty record and is
removed from staging. -/
theorem c7_no_headings_witness :
    parseFragment ([] : List String) = [] ∧
    doneOne (fun s => Except.ok s) (fun _ _ => Except.ok ()) "empty.md"
        (FS.mk [("empty.md", [])] []) =
      (Except.ok (),
        FS.mk (removeKey [("empty.md", [])] "empty.md")
          (setKey [] (outputName "empty.md") [])) := by
  have h := c7_no_headings [] "empty.md" (FS.mk [("empty.md", [])] [])
    (fun s => Except.ok s) (fun _ _ => Except.ok ())
    (by decide) (by decide) rfl
  exact ⟨h.1, h.2.1⟩

/-- C6 (counterexample): for the staged filename `foo.txt` the code writes
`foo..yaml` (it removes the last three characters, not the extension),
while replacing the extension would give `foo.yaml`; the claim fails for
this extension. -/
theorem c6_counterexample :
    outputName "foo.txt" = "foo..yaml" ∧
    replaceExtYaml "foo.txt" = "foo.yaml" ∧
    outputName "foo.txt" ≠ replaceExtYaml "foo.txt" := by
  decide

/-- C6 (amended): the output file is named by removing the final three
characters of the fragment's filename and appending `.yaml`; for every
filename with the standard two-letter markup extension (`<base>.md`) this
coincides with replacing the extension by `.yaml`, but not for arbitrary
extensions. -/
theorem c6_output_naming (base : String) :
    outputName (base ++ ".md") = base ++ ".yaml" ∧
    outputName (base ++ ".md") = replaceExtYaml (base ++ ".md") := by
  have hdata : (base ++ ".md").data = base.data ++ ['.', 'm', 'd'] := rfl
  have h1 : outputName (base ++ ".md") = base ++ ".yaml" := by
    unfold outputName sliceDropRight
    rw [hdata]
    have hlen : (base.data ++ ['.', 'm', 'd']).length - 3 = base.data.length := by
      simp
    rw [hlen, List.take_left]
  have h2 : replaceExtYaml (base ++ ".md") = base ++ ".yaml" := by
    unfold replaceExtYaml
    rw [hdata]
    have hcon : '.' ∈ base.data ++ ['.', 'm', 'd'] := by simp
    rw [if_pos hcon, List.reverse_append]
    have hrev : (['.', 'm', 'd'] : List Char).reverse = ['d', 'm', '.'] := rfl
    rw [hrev]
    have hdw : List.dropWhile (fun c => c != '.') (['d', 'm', '.'] ++ base.data.reverse)
        = '.' :: base.data.reverse := rfl
    rw [hdw]
    have hdrop : (('.' :: base.data.reverse).drop 1) = base.data.reverse := rfl
    rw [hdrop, List.reverse_reverse]
  exact ⟨h1, h1.trans h2.symm⟩

/-- C8: the creator adds exactly one new empty file, at path
`.changelog/<title>-<suffix>.md` where the suffix is the last sixteen
characters of the 32-character lowercase-hex uuid, hence sixteen hex
characters; and two invocations with the same title whose generated
suffixes differ create distinct paths. -/
theorem c8_fragment_naming (t uA uB : String) (ed : Option String) (r : String → Int)
    (files : List (String × String))
    (hlen : uA.data.length = 32)
    (hhex : ∀ c ∈ uA.data, isHexChar c = true) :
    (newTask t uA ed r files).files = files ++ [(fragmentPath t uA, "")] ∧
    fragmentPath t uA = ".changelog/" ++ t ++ "-" ++ sliceFrom uA 16 ++ ".md" ∧
    (sliceFrom uA 16).data.length = 16 ∧
    (∀ c ∈ (sliceFrom uA 16).data, isHexChar c = true) ∧
    (sliceFrom uA 16 ≠ sliceFrom uB 16 → fragmentPath t uA ≠ fragmentPath t uB) := by
  refine ⟨?_, rfl, ?_, ?_, ?_⟩
  · cases ed <;> rfl
  · show (uA.data.drop 16).length = 16
    rw [List.length_drop, hlen]
  · intro c hc
    exact hhex c (List.drop_subset 16 uA.data hc)
  · intro hne heq
    apply hne
    have hd : (fragmentPath t uA).data = (fragmentPath t uB).data :=
      congrArg String.data heq
    have hA : (fragmentPath t uA).data
        = (".changelog/".data ++ t.data ++ "-".data ++ (sliceFrom uA 16).data)
          ++ ".md".data := rfl
    have hB : (fragmentPath t uB).data
        = (".changelog/".data ++ t.data ++ "-".data ++ (sliceFrom uB 16).data)
          ++ ".md".data := rfl
    rw [hA, hB] at hd
    exact congrArg String.mk (List.append_cancel_left (List.append_cancel_right hd))

/-- C8 (witness): a concrete 32-character hex uuid yields a 16-character
suffix, and a second uuid with a different suffix yields a different path
for the same title. -/
theorem c8_fragment_naming_witness :
    (sliceFrom "0123456789abcdef0123456789abcdef" 16).data.length = 16 ∧
    fragmentPath "fix" "0123456789abcdef0123456789abcdef"
      ≠ fragmentPath "fix" "0123456789abcdeffedcba9876543210" := by
  have h := c8_fragment_naming "fix" "0123456789abcdef0123456789abcdef"
    "0123456789abcdeffedcba9876543210" none (fun _ => 0) [] (by decide) (by decide)
  exact ⟨h.2.2.1, h.2.2.2.2 (by decide)⟩

/-- C9 (counterexample): with `EDITOR` set and the editor command exiting
with the failure status 127, the creator does not fail: the run completes
normally with the fragment file created, the reminder printed, and the
editor's exit status recorded but never inspected.  This refutes the claim
that an editor failure propagates as a fatal error. -/
theorem c9_counterexample :
    newTask "fix" "0123456789abcdef0123456789abcdef" (some "vim") (fun _ => 127) [] =
      NewResult.mk ".changelog/fix-0123456789abcdef.md"
        [(".changelog/fix-0123456789abcdef.md", "")]
        [Msg.reminder] (some 127) := by
  decide

/-- C9 (amended): when `EDITOR` is set, the outcome of the creator is
independent of the exit status of the editor command: whatever status the
invoked command returns, the creator still creates exactly the one empty
fragment file and prints the reminder; the status is discarded. -/
theorem c9_editor_status_ignored (t u ed : String) (r : String → Int)
    (files : List (String × String)) :
    (newTask t u (some ed) r files).files = files ++ [(fragmentPath t u, "")] ∧
    (newTask t u (some ed) r files).messages = [Msg.reminder] ∧
    (newTask t u (some ed) r files).createdPath = fragmentPath t u :=
  ⟨rfl, rfl, rfl⟩

end Changelog
